import Mathlib

/-!
Shallow embedding of the GPU statistics wrapper `gpu/gpu_wrap.py` of this
repository, together with proofs of the per-slice statistical reduction
contract (boundary resolution, per-slice mean / std / covariance, emittance,
bounds caching, the sort / permutation utilities and their error behaviour).

Numeric arrays (`pycuda.gpuarray` of dtype float64 / int32) are embedded as
`List ℚ`: the claims under scrutiny concern the algebraic formulas computed,
not floating-point rounding.  Machine results that are square roots are
stated over `ℝ` via `Real.sqrt`.  Python exceptions are embedded as an
`Except` error type.

The functions of `gpu_wrap.py` delegate to three pieces of repository code
that are not under `src/`: the CUDA kernels in `stats.cu`
(`sorted_mean_per_slice`, `sorted_std_per_slice`, `sorted_cov_per_slice`)
and the compiled `thrust_interface` extension (`lower_bound_int`,
`upper_bound_int`, `get_sort_perm_*`, `apply_sort_perm_*`).  Those are
modelled from the spec; each such definition carries a doc comment starting
with `Modelled from the spec:`.
-/

namespace GpuWrap

/-- Python exceptions that the wrapper can raise, embedded as error values.
`shapeMismatch` is the spec's `ShapeMismatch` error class. -/
inductive PyErr where
  | typeError
  | nameError
  | assertionError
  | shapeMismatch
  deriving DecidableEq, Repr

/-- A numpy dtype, reduced to the two attributes `gpu_wrap.py` inspects:
`itemsize` and `kind`. -/
structure DType where
  itemsize : ℕ
  kind : Char
  deriving DecidableEq, Repr

/-- The 64-bit floating dtype: `itemsize == 8 and kind is 'f'`. -/
def float64 : DType := ⟨8, 'f'⟩

/-- The 32-bit integer dtype: `itemsize == 4 and kind is 'i'`. -/
def int32 : DType := ⟨4, 'i'⟩

/-- A GPU array: a dtype tag plus its dense contents. -/
structure GArr where
  dtype : DType
  data : List ℚ
  deriving DecidableEq, Repr

/-- `skcuda.misc.mean`: the arithmetic mean of an array (0 on the empty
array, where division by zero in `ℚ` yields 0). -/
def pymean (a : List ℚ) : ℚ := a.sum / a.length

/-- The elementwise products of deviations `(a - mean(a)) * (b - mean(b))`,
as computed by the body of `covariance`. -/
def devProds (a b : List ℚ) : List ℚ :=
  List.zipWith (· * ·) (a.map (fun v => v - pymean a)) (b.map (fun v => v - pymean b))

/-- `covariance(a, b)` from `gpu_wrap.py` lines 44-56:
`mean((a - mean(a)) * (b - mean(b))) * n / (n + 1)` with `n = len(a)`. -/
def covariance (a b : List ℚ) : ℚ :=
  let n : ℚ := a.length
  let mean_a := pymean a
  let x := a.map (fun v => v - mean_a)
  let mean_b := pymean b
  let y := b.map (fun v => v - mean_b)
  pymean (List.zipWith (· * ·) x y) * n / (n + 1)

/-- `emittance(u, up, dp)` from `gpu_wrap.py` lines 58-83.  `dp = None` is
embedded as `Option.none`.  Note the source computes `covariance(up, u)`
for the mixed term.  The final `np.sqrt` is taken in `ℝ`. -/
noncomputable def emittance (u up : List ℚ) (dp : Option (List ℚ)) : ℝ :=
  let cov_u2 := covariance u u
  let cov_up2 := covariance up up
  let cov_u_up := covariance up u
  let cov_u_dp : ℚ := match dp with | some dpv => covariance u dpv | none => 0
  let cov_up_dp : ℚ := match dp with | some dpv => covariance up dpv | none => 0
  let cov_dp2 : ℚ := match dp with | some dpv => covariance dpv dpv | none => 1
  let sigma11 := cov_u2 - cov_u_dp * cov_u_dp / cov_dp2
  let sigma12 := cov_u_up - cov_u_dp * cov_up_dp / cov_dp2
  let sigma22 := cov_up2 - cov_up_dp * cov_up_dp / cov_dp2
  Real.sqrt ((sigma11 * sigma22 - sigma12 * sigma12 : ℚ) : ℝ)

/-- Insertion of one (value, index) pair into a value-sorted list; helper
for the executable model of the thrust sort. -/
def insertPair (x : ℚ × ℕ) : List (ℚ × ℕ) → List (ℚ × ℕ)
  | [] => [x]
  | y :: ys => if x.1 ≤ y.1 then x :: y :: ys else y :: insertPair x ys

/-- Insertion sort on (value, index) pairs, ordered by value; helper for
the executable model of the thrust sort. -/
def sortPairs : List (ℚ × ℕ) → List (ℚ × ℕ)
  | [] => []
  | x :: xs => insertPair x (sortPairs xs)

/-- Modelled from the spec: `thrust_interface.get_sort_perm_double/int`
(compiled extension, not under `src/`), "Return the permutation required
to sort the array": the index column of the array's value-sorted
(value, index) pairs. -/
def getSortPerm (xs : List ℚ) : List ℕ :=
  (sortPairs (xs.enum.map (fun p => (p.2, p.1)))).map Prod.snd

/-- Modelled from the spec: the contents a buffer holds after the thrust
sort has sorted it in place. -/
def sortData (xs : List ℚ) : List ℚ :=
  (sortPairs (xs.enum.map (fun p => (p.2, p.1)))).map Prod.fst

/-- `argsort(to_sort)` from `gpu_wrap.py` lines 85-103.  On a dtype that is
neither float64 nor int32 the source first executes `print array.dtype`,
but no name `array` is bound in that scope (the parameter is `to_sort`),
so Python raises `NameError` before reaching the `raise TypeError` line. -/
def argsort (to_sort : GArr) : Except PyErr GArr :=
  let dtype := to_sort.dtype
  if dtype.itemsize = 8 ∧ dtype.kind = 'f' then
    .ok ⟨int32, (getSortPerm to_sort.data).map (fun n : ℕ => (n : ℚ))⟩
  else if dtype.itemsize = 4 ∧ dtype.kind = 'i' then
    .ok ⟨int32, (getSortPerm to_sort.data).map (fun n : ℕ => (n : ℚ))⟩
  else
    .error .nameError

/-- `array[permutation]`: entry `i` of the result is `array[permutation[i]]`.
Permutation entries live in an int32 array embedded as `List ℚ`; they are
read back as natural numbers via `Rat.num` / `Int.toNat`. -/
def applyPermData (arr : List ℚ) (perm : List ℚ) : List ℚ :=
  perm.map (fun q => arr.getD q.num.toNat 0)

/-- Modelled from the spec: `thrust_interface.apply_sort_perm_double/int`
(compiled extension, not under `src/`).  Per the docstring in `src`, the
result equals `array[permutation]`; per the spec's error taxonomy, a
permutation whose length differs from the array it is applied to is
detected at the boundary and reported as `ShapeMismatch` with no partial
computation. -/
def thrust_apply_sort_perm (array : GArr) (perm : GArr) : Except PyErr GArr :=
  if perm.data.length = array.data.length then
    .ok ⟨array.dtype, applyPermData array.data perm.data⟩
  else
    .error .shapeMismatch

/-- `apply_permutation(array, permutation)` from `gpu_wrap.py` lines
105-125: assert the permutation dtype is int32, then dispatch on the
array dtype (float64 / int32 supported, anything else raises TypeError). -/
def apply_permutation (array : GArr) (permutation : GArr) : Except PyErr GArr :=
  if permutation.dtype.itemsize = 4 ∧ permutation.dtype.kind = 'i' then
    if array.dtype.itemsize = 8 ∧ array.dtype.kind = 'f' then
      thrust_apply_sort_perm array permutation
    else if array.dtype.itemsize = 4 ∧ array.dtype.kind = 'i' then
      thrust_apply_sort_perm array permutation
    else
      .error .typeError
  else
    .error .assertionError

/-- Modelled from the spec: `thrust_interface.lower_bound_int` applied to
one query `v`, "the first position where `slice_index_of_particle >= v`"
(the array's length when no such position exists). -/
def lowerBound (xs : List ℤ) (v : ℤ) : ℕ :=
  xs.findIdx (fun x => decide (v ≤ x))

/-- Modelled from the spec: `thrust_interface.upper_bound_int` applied to
one query `v`, "the first position where `slice_index_of_particle > v`"
(the array's length when no such position exists). -/
def upperBound (xs : List ℤ) (v : ℤ) : ℕ :=
  xs.findIdx (fun x => decide (v < x))

/-- The sliceset object seen by `gpu_wrap.py`: the slicing input
(`n_slices`, sorted `slice_index_of_particle`) plus the lazily attached
bounds attributes.  Absent attributes (`hasattr` false) are `none`. -/
structure SliceSet where
  n_slices : ℕ
  slice_index_of_particle : List ℤ
  lower_bounds : Option (List ℕ)
  upper_bounds : Option (List ℕ)
  pidx_begin : Option ℕ
  pidx_end : Option ℕ
  deriving DecidableEq, Repr

/-- `_add_bounds_to_sliceset(sliceset)` from `gpu_wrap.py` lines 147-164:
attach `lower_bounds` / `upper_bounds` (the two monotonic searches mapped
over `arange(n_slices)`) plus `_pidx_begin = lower_bounds[0]` and
`_pidx_end = upper_bounds[-1]` (the last entry, at index `n_slices - 1`). -/
def add_bounds_to_sliceset (s : SliceSet) : SliceSet :=
  let seq := List.range s.n_slices
  let upper := seq.map (fun i : ℕ => upperBound s.slice_index_of_particle (i : ℤ))
  let lower := seq.map (fun i : ℕ => lowerBound s.slice_index_of_particle (i : ℤ))
  { s with upper_bounds := some upper
           lower_bounds := some lower
           pidx_begin := some (lower.getD 0 0)
           pidx_end := some (upper.getD (s.n_slices - 1) 0) }

/-- The lazy-initialization guard shared by every statistics operation:
`if (not hasattr(upper_bounds)) and (not hasattr(lower_bounds)):
_add_bounds_to_sliceset(sliceset)`. -/
def ensureBounds (s : SliceSet) : SliceSet :=
  if s.upper_bounds = none ∧ s.lower_bounds = none then add_bounds_to_sliceset s else s

/-- `particles_within_cuts(sliceset)` from `gpu_wrap.py` lines 127-135:
`arange(pidx_begin, pidx_end)` after ensuring the bounds; the updated
sliceset is returned alongside to track the attribute mutation. -/
def particles_within_cuts (s : SliceSet) : List ℕ × SliceSet :=
  let s' := ensureBounds s
  (List.range' (s'.pidx_begin.getD 0) (s'.pidx_end.getD 0 - s'.pidx_begin.getD 0), s')

/-- `macroparticles_per_slice(sliceset)` from `gpu_wrap.py` lines 137-144:
`upper_bounds - lower_bounds` after ensuring the bounds. -/
def macroparticles_per_slice (s : SliceSet) : List ℕ × SliceSet :=
  let s' := ensureBounds s
  (List.zipWith (fun u l => u - l) (s'.upper_bounds.getD []) (s'.lower_bounds.getD []), s')

/-- The sub-array `u[lo:hi]` of one slice. -/
def extract (u : List ℚ) (lo hi : ℕ) : List ℚ := (u.drop lo).take (hi - lo)

/-- Arithmetic mean of one slice; the spec fixes the empty slice to 0. -/
def sliceMean (xs : List ℚ) : ℚ := if xs.length = 0 then 0 else xs.sum / xs.length

/-- Two-pass population variance of one slice: mean first, then mean of
squared deviations (spec section 4.2). -/
def slice_variance (xs : List ℚ) : ℚ :=
  sliceMean (xs.map (fun x => (x - sliceMean xs) * (x - sliceMean xs)))

/-- Modelled from the spec: the `sorted_mean_per_slice` kernel of
`stats.cu` (not under `src/`): entry `i` is the arithmetic mean of
`u[lower_bounds[i]:upper_bounds[i]]`, 0 for an empty slice. -/
def sorted_mean_per_slice_kernel (lower upper : List ℕ) (u : List ℚ) (n_slices : ℕ) : List ℚ :=
  (List.range n_slices).map (fun i => sliceMean (extract u (lower.getD i 0) (upper.getD i 0)))

/-- Modelled from the spec: the `sorted_std_per_slice` kernel of
`stats.cu` (not under `src/`): the square root of the two-pass population
variance of each slice (empty and singleton slices yield 0). -/
noncomputable def sorted_std_per_slice_kernel
    (lower upper : List ℕ) (u : List ℚ) (n_slices : ℕ) : List ℝ :=
  (List.range n_slices).map (fun i =>
    Real.sqrt ((slice_variance (extract u (lower.getD i 0) (upper.getD i 0)) : ℚ) : ℝ))

/-- Modelled from the spec: the `sorted_cov_per_slice` kernel of
`stats.cu` (not under `src/`): the per-slice covariance of `u` and `v`
"using the same bias correction as the whole-beam covariance", i.e. the
whole-beam `covariance` applied to each slice's sub-arrays. -/
def sorted_cov_per_slice_kernel (lower upper : List ℕ) (u v : List ℚ) (n_slices : ℕ) : List ℚ :=
  (List.range n_slices).map (fun i =>
    covariance (extract u (lower.getD i 0) (upper.getD i 0))
      (extract v (lower.getD i 0) (upper.getD i 0)))

/-- `sorted_mean_per_slice(sliceset, u)` from `gpu_wrap.py` lines 166-187:
ensure the bounds, then run the mean kernel over all slices. -/
def sorted_mean_per_slice (s : SliceSet) (u : List ℚ) : List ℚ × SliceSet :=
  let s' := ensureBounds s
  (sorted_mean_per_slice_kernel (s'.lower_bounds.getD []) (s'.upper_bounds.getD []) u
    s'.n_slices, s')

/-- `sorted_std_per_slice(sliceset, u)` from `gpu_wrap.py` lines 189-207:
ensure the bounds, then run the std kernel over all slices. -/
noncomputable def sorted_std_per_slice (s : SliceSet) (u : List ℚ) : List ℝ × SliceSet :=
  let s' := ensureBounds s
  (sorted_std_per_slice_kernel (s'.lower_bounds.getD []) (s'.upper_bounds.getD []) u
    s'.n_slices, s')

/-- `sorted_cov_per_slice(sliceset, u, v)` from `gpu_wrap.py` lines
209-227: ensure the bounds, then run the covariance kernel.  Per the
spec's error taxonomy, value arrays whose length differs from the
slicing's particle count are rejected as `ShapeMismatch` before any
reduction (that check lives in repository code not under `src/` and is
modelled from the spec). -/
def sorted_cov_per_slice (s : SliceSet) (u v : List ℚ) : Except PyErr (List ℚ) × SliceSet :=
  let s' := ensureBounds s
  (if u.length = s.slice_index_of_particle.length ∧
      v.length = s.slice_index_of_particle.length then
    .ok (sorted_cov_per_slice_kernel (s'.lower_bounds.getD []) (s'.upper_bounds.getD []) u v
      s'.n_slices)
  else .error .shapeMismatch, s')

/-- Elementwise subtraction of two per-slice result arrays. -/
def ewSub (a b : List ℚ) : List ℚ := List.zipWith (fun x y => x - y) a b

/-- Elementwise multiplication of two per-slice result arrays. -/
def ewMul (a b : List ℚ) : List ℚ := List.zipWith (fun x y => x * y) a b

/-- Elementwise division of two per-slice result arrays. -/
def ewDiv (a b : List ℚ) : List ℚ := List.zipWith (fun x y => x / y) a b

/-- The composition step of `sorted_emittance_per_slice` (`gpu_wrap.py`
lines 251-258): after the join point, combine the six per-slice covariance
arrays elementwise and take the square root; a failed covariance
propagates its exception, the first one in program order. -/
noncomputable def emittance_compose (a b c d e f : Except PyErr (List ℚ)) :
    Except PyErr (List ℝ) := do
  let cov_u2 ← a
  let cov_up2 ← b
  let cov_u_up ← c
  let cov_u_dp ← d
  let cov_up_dp ← e
  let cov_dp2 ← f
  let sigma11 := ewSub cov_u2 (ewDiv (ewMul cov_u_dp cov_u_dp) cov_dp2)
  let sigma12 := ewSub cov_u_up (ewDiv (ewMul cov_u_dp cov_up_dp) cov_dp2)
  let sigma22 := ewSub cov_up2 (ewDiv (ewMul cov_up_dp cov_up_dp) cov_dp2)
  pure ((ewSub (ewMul sigma11 sigma22) (ewMul sigma12 sigma12)).map
    (fun q => Real.sqrt ((q : ℚ) : ℝ)))

/-- `sorted_emittance_per_slice(sliceset, u, up, dp)` from `gpu_wrap.py`
lines 229-258: three (or six) per-slice covariances, then the elementwise
emittance formula; with `dp = None` the three dp arrays default to
`zeros`, `zeros` and `zeros + 1`. -/
noncomputable def sorted_emittance_per_slice (s : SliceSet) (u up : List ℚ)
    (dp : Option (List ℚ)) : Except PyErr (List ℝ) × SliceSet :=
  let r1 := sorted_cov_per_slice s u u
  let r2 := sorted_cov_per_slice r1.2 up up
  let r3 := sorted_cov_per_slice r2.2 u up
  match dp with
  | some dpv =>
    let r4 := sorted_cov_per_slice r3.2 u dpv
    let r5 := sorted_cov_per_slice r4.2 up dpv
    let r6 := sorted_cov_per_slice r5.2 dpv dpv
    (emittance_compose r1.1 r2.1 r3.1 r4.1 r5.1 r6.1, r6.2)
  | none =>
    (emittance_compose r1.1 r2.1 r3.1 (.ok (List.replicate r3.2.n_slices 0))
      (.ok (List.replicate r3.2.n_slices 0)) (.ok (List.replicate r3.2.n_slices 1)), r3.2)

/-- The dummy cell behind an out-of-range heap read. -/
def dummyArr : GArr := ⟨⟨0, 'x'⟩, []⟩

/-- A heap of GPU arrays, for the frame (non-mutation) claims: cells are
addressed by index, mutation is `List.set`, allocation appends. -/
abbrev Heap := List GArr

/-- Read the array stored at heap cell `r`. -/
def readH (h : Heap) (r : ℕ) : GArr := h.getD r dummyArr

/-- Overwrite heap cell `r`. -/
def writeH (h : Heap) (r : ℕ) (a : GArr) : Heap := h.set r a

/-- Modelled from the spec: the heap-level effect of
`thrust_interface.get_sort_perm_*` (not under `src/`): sort the keys
buffer in place and write the sorting permutation into the permutation
buffer; no other cell is touched. -/
def thrust_get_sort_perm_H (h : Heap) (keys perm : ℕ) : Heap :=
  let ks := (readH h keys).data
  writeH (writeH h keys ⟨(readH h keys).dtype, sortData ks⟩) perm
    ⟨int32, (getSortPerm ks).map (fun n : ℕ => (n : ℚ))⟩

/-- Heap-level `argsort(to_sort)`: allocate the permutation array, then
pass `to_sort.copy()` (a second fresh allocation) to the thrust sort, so
the caller's cell is never written. -/
def argsortH (h : Heap) (to_sort : ℕ) : Except PyErr (Heap × ℕ) :=
  let dtype := (readH h to_sort).dtype
  let permRef := h.length
  let h1 := h ++ [⟨int32, List.replicate (readH h to_sort).data.length 0⟩]
  if dtype.itemsize = 8 ∧ dtype.kind = 'f' then
    let copyRef := h1.length
    let h2 := h1 ++ [readH h to_sort]
    .ok (thrust_get_sort_perm_H h2 copyRef permRef, permRef)
  else if dtype.itemsize = 4 ∧ dtype.kind = 'i' then
    let copyRef := h1.length
    let h2 := h1 ++ [readH h to_sort]
    .ok (thrust_get_sort_perm_H h2 copyRef permRef, permRef)
  else
    .error .nameError

/-- Modelled from the spec: the heap-level effect of
`thrust_interface.apply_sort_perm_*` (not under `src/`): write
`array[permutation]` into the destination buffer (rejecting a length
mismatch as `ShapeMismatch`); no other cell is touched. -/
def thrust_apply_sort_perm_H (h : Heap) (src dst perm : ℕ) : Except PyErr Heap :=
  if (readH h perm).data.length = (readH h src).data.length then
    .ok (writeH h dst ⟨(readH h dst).dtype, applyPermData (readH h src).data
      (readH h perm).data⟩)
  else
    .error .shapeMismatch

/-- Heap-level `apply_permutation(array, permutation)`: assert the
permutation dtype, allocate `tmp = empty_like(array)` fresh, dispatch on
the array dtype, and let thrust write only into `tmp`. -/
def apply_permutationH (h : Heap) (array perm : ℕ) : Except PyErr (Heap × ℕ) :=
  if (readH h perm).dtype.itemsize = 4 ∧ (readH h perm).dtype.kind = 'i' then
    let tmpRef := h.length
    let h1 := h ++ [⟨(readH h array).dtype, List.replicate (readH h array).data.length 0⟩]
    let dtype := (readH h array).dtype
    if dtype.itemsize = 8 ∧ dtype.kind = 'f' then
      match thrust_apply_sort_perm_H h1 array tmpRef perm with
      | .ok h2 => .ok (h2, tmpRef)
      | .error e => .error e
    else if dtype.itemsize = 4 ∧ dtype.kind = 'i' then
      match thrust_apply_sort_perm_H h1 array tmpRef perm with
      | .ok h2 => .ok (h2, tmpRef)
      | .error e => .error e
    else
      .error .typeError
  else
    .error .assertionError

/-! General lemmas about `findIdx` / `countP` on ascending-sorted integer
lists, used to characterize the two monotonic boundary searches. -/

/-- Indexing a `map` over `range` with `getD` inside the range evaluates
the function. -/
theorem getD_map_range {α : Type} (f : ℕ → α) {i n : ℕ} (h : i < n) (d : α) :
    ((List.range n).map f).getD i d = f i := by
  simp [List.getD, List.getElem?_map, List.getElem?_range, h]

/-- Indexing a `map` over `range` with `getD` outside the range gives the
default. -/
theorem getD_map_range_ge {α : Type} (f : ℕ → α) {i n : ℕ} (h : n ≤ i) (d : α) :
    ((List.range n).map f).getD i d = d := by
  have hlen : ((List.range n).map f).length = n := by simp
  simp [List.getD, List.getElem?_eq_none, hlen, h]

/-- On a sorted list, the first index satisfying an upward-closed predicate
is the number of elements falsifying it. -/
theorem sorted_findIdx_eq_countP {P : ℤ → Bool}
    (hP : ∀ x y : ℤ, x ≤ y → P x = true → P y = true) :
    ∀ {l : List ℤ}, l.Sorted (· ≤ ·) → l.findIdx P = l.countP (fun x => !P x)
  | [], _ => by simp
  | a :: t, hs => by
    obtain ⟨ha, hs'⟩ := List.sorted_cons.mp hs
    by_cases hPa : P a = true
    · have ht : t.countP (fun x => !P x) = 0 :=
        List.countP_eq_zero.mpr (fun x hx => by simp [hP a x (ha x hx) hPa])
      simp [List.findIdx_cons, List.countP_cons, hPa, ht]
    · have hfa : P a = false := by simp [hPa]
      simp [List.findIdx_cons, List.countP_cons, hfa,
        sorted_findIdx_eq_countP hP hs']

/-- On a sorted list, the count of elements falsifying an upward-closed
predicate is at most `j` exactly when the element at `j` satisfies it. -/
theorem sorted_countP_le_iff {P : ℤ → Bool}
    (hP : ∀ x y : ℤ, x ≤ y → P x = true → P y = true) :
    ∀ {l : List ℤ}, l.Sorted (· ≤ ·) → ∀ {j : ℕ} (hj : j < l.length),
      (l.countP (fun x => !P x) ≤ j ↔ P (l.get ⟨j, hj⟩) = true)
  | [], _, j, hj => by simp at hj
  | a :: t, hs, j, hj => by
    obtain ⟨ha, hs'⟩ := List.sorted_cons.mp hs
    by_cases hPa : P a = true
    · have ht : t.countP (fun x => !P x) = 0 :=
        List.countP_eq_zero.mpr (fun x hx => by simp [hP a x (ha x hx) hPa])
      cases j with
      | zero => simp [List.countP_cons, hPa, ht]
      | succ j =>
        have hj' : j < t.length := by simpa using hj
        have hmem : t[j] ∈ t := List.getElem_mem hj'
        have hPt : P t[j] = true := hP a _ (ha _ hmem) hPa
        simp [List.countP_cons, hPa, ht, List.get_cons_succ, hPt]
    · have hfa : P a = false := by simp [hPa]
      cases j with
      | zero => simp [List.countP_cons, hfa, hPa]
      | succ j =>
        have hj' : j < t.length := by simpa using hj
        have := sorted_countP_le_iff hP hs' hj'
        simp only [List.countP_cons, hfa, List.get_cons_succ]
        simpa using this

/-- On a sorted list, position `j` lies at or after the lower-bound search
result for `v` exactly when the element there is `≥ v`. -/
theorem lowerBound_le_iff {l : List ℤ} (hs : l.Sorted (· ≤ ·)) (v : ℤ)
    {j : ℕ} (hj : j < l.length) :
    lowerBound l v ≤ j ↔ v ≤ l.get ⟨j, hj⟩ := by
  have hP : ∀ x y : ℤ, x ≤ y → decide (v ≤ x) = true → decide (v ≤ y) = true := by
    intro x y hxy hx
    simp only [decide_eq_true_eq] at hx ⊢
    exact le_trans hx hxy
  rw [lowerBound, sorted_findIdx_eq_countP hP hs]
  simpa using sorted_countP_le_iff hP hs hj

/-- On a sorted list, position `j` lies at or after the upper-bound search
result for `v` exactly when the element there is `> v`. -/
theorem upperBound_le_iff {l : List ℤ} (hs : l.Sorted (· ≤ ·)) (v : ℤ)
    {j : ℕ} (hj : j < l.length) :
    upperBound l v ≤ j ↔ v < l.get ⟨j, hj⟩ := by
  have hP : ∀ x y : ℤ, x ≤ y → decide (v < x) = true → decide (v < y) = true := by
    intro x y hxy hx
    simp only [decide_eq_true_eq] at hx ⊢
    exact lt_of_lt_of_le hx hxy
  rw [upperBound, sorted_findIdx_eq_countP hP hs]
  simpa using sorted_countP_le_iff hP hs hj

/-- The lower-bound search never exceeds the upper-bound search on a sorted
list. -/
theorem lowerBound_le_upperBound {l : List ℤ} (hs : l.Sorted (· ≤ ·)) (v : ℤ) :
    lowerBound l v ≤ upperBound l v := by
  have hPl : ∀ x y : ℤ, x ≤ y → decide (v ≤ x) = true → decide (v ≤ y) = true := by
    intro x y hxy hx
    simp only [decide_eq_true_eq] at hx ⊢
    exact le_trans hx hxy
  have hPu : ∀ x y : ℤ, x ≤ y → decide (v < x) = true → decide (v < y) = true := by
    intro x y hxy hx
    simp only [decide_eq_true_eq] at hx ⊢
    exact lt_of_lt_of_le hx hxy
  rw [lowerBound, upperBound, sorted_findIdx_eq_countP hPl hs,
    sorted_findIdx_eq_countP hPu hs]
  refine List.countP_mono_left (fun x _ h => ?_)
  simp only [Bool.not_eq_eq_eq_not, Bool.not_true, decide_eq_false_iff_not, not_le,
    not_lt] at h ⊢
  omega

/-- The integer upper-bound search for `v` coincides with the lower-bound
search for `v + 1` (no sortedness needed). -/
theorem upperBound_eq_lowerBound_succ (l : List ℤ) (i : ℕ) :
    upperBound l (i : ℤ) = lowerBound l ((i + 1 : ℕ) : ℤ) := by
  have hfun : (fun x : ℤ => decide ((i : ℤ) < x)) =
      (fun x : ℤ => decide (((i + 1 : ℕ) : ℤ) ≤ x)) := by
    funext x
    simp only [decide_eq_decide]
    push_cast
    omega
  unfold upperBound lowerBound
  rw [hfun]

/-- The `lower_bounds` entry attached for slice `i`. -/
def lbAt (s : SliceSet) (i : ℕ) : ℕ :=
  ((add_bounds_to_sliceset s).lower_bounds.getD []).getD i 0

/-- The `upper_bounds` entry attached for slice `i`. -/
def ubAt (s : SliceSet) (i : ℕ) : ℕ :=
  ((add_bounds_to_sliceset s).upper_bounds.getD []).getD i 0

theorem lbAt_eq (s : SliceSet) {i : ℕ} (hi : i < s.n_slices) :
    lbAt s i = lowerBound s.slice_index_of_particle (i : ℤ) := by
  simp only [lbAt, add_bounds_to_sliceset, Option.getD_some]
  exact getD_map_range _ hi 0

theorem ubAt_eq (s : SliceSet) {i : ℕ} (hi : i < s.n_slices) :
    ubAt s i = upperBound s.slice_index_of_particle (i : ℤ) := by
  simp only [ubAt, add_bounds_to_sliceset, Option.getD_some]
  exact getD_map_range _ hi 0

theorem ubAt_of_ge (s : SliceSet) {i : ℕ} (hi : s.n_slices ≤ i) : ubAt s i = 0 := by
  simp only [ubAt, add_bounds_to_sliceset, Option.getD_some]
  exact getD_map_range_ge _ hi 0

/-- The boundary-resolution contract for slice `i` of a sliceset: the
attached entries are the two monotonic searches; the lower bound is the
first position holding an index `≥ i` and the upper bound the first
position holding an index `> i`; bounds are ordered; the half-open range
`[lower_bounds[i], upper_bounds[i])` consists exactly of the positions
holding index `i`, ranges of distinct slices are disjoint, and
`upper_bounds[i] = lower_bounds[i+1]`. -/
def boundsSpec (s : SliceSet) (i : ℕ) : Prop :=
  lbAt s i = lowerBound s.slice_index_of_particle (i : ℤ) ∧
  ubAt s i = upperBound s.slice_index_of_particle (i : ℤ) ∧
  (∀ p (hp : p < s.slice_index_of_particle.length), p < lbAt s i →
    s.slice_index_of_particle.get ⟨p, hp⟩ < (i : ℤ)) ∧
  (∀ hp : lbAt s i < s.slice_index_of_particle.length,
    (i : ℤ) ≤ s.slice_index_of_particle.get ⟨lbAt s i, hp⟩) ∧
  (∀ p (hp : p < s.slice_index_of_particle.length), p < ubAt s i →
    s.slice_index_of_particle.get ⟨p, hp⟩ ≤ (i : ℤ)) ∧
  (∀ hp : ubAt s i < s.slice_index_of_particle.length,
    (i : ℤ) < s.slice_index_of_particle.get ⟨ubAt s i, hp⟩) ∧
  lbAt s i ≤ ubAt s i ∧
  (∀ p (hp : p < s.slice_index_of_particle.length),
    (lbAt s i ≤ p ∧ p < ubAt s i) ↔ s.slice_index_of_particle.get ⟨p, hp⟩ = (i : ℤ)) ∧
  (∀ j : ℕ, j ≠ i → ∀ p : ℕ,
    ¬(lbAt s i ≤ p ∧ p < ubAt s i ∧ lbAt s j ≤ p ∧ p < ubAt s j)) ∧
  (i + 1 < s.n_slices → ubAt s i = lbAt s (i + 1))

/-- C2: for every ascending-sorted slice index array and every slice `i`
in `[0, n_slices)`, the boundary resolver attaches the first position with
index `≥ i` as `lower_bounds[i]` and the first position with index `> i`
as `upper_bounds[i]`; bounds are ordered, the half-open ranges exactly
cover the positions holding index `i` without overlap across distinct
slices, and `upper_bounds[i] = lower_bounds[i+1]`. -/
theorem slice_bounds_partition (s : SliceSet)
    (hs : s.slice_index_of_particle.Sorted (· ≤ ·)) (i : ℕ) (hi : i < s.n_slices) :
    boundsSpec s i := by
  have hlb := lbAt_eq s hi
  have hub := ubAt_eq s hi
  have hcov : ∀ {k : ℕ} (hk : k < s.n_slices) (p : ℕ)
      (hp : p < s.slice_index_of_particle.length),
      (lbAt s k ≤ p ∧ p < ubAt s k) ↔
        s.slice_index_of_particle.get ⟨p, hp⟩ = (k : ℤ) := by
    intro k hk p hp
    rw [lbAt_eq s hk, ubAt_eq s hk]
    constructor
    · rintro ⟨h1, h2⟩
      have hge : (k : ℤ) ≤ s.slice_index_of_particle.get ⟨p, hp⟩ :=
        (lowerBound_le_iff hs (k : ℤ) hp).mp h1
      have hle : s.slice_index_of_particle.get ⟨p, hp⟩ ≤ (k : ℤ) := by
        by_contra hcon
        have := (upperBound_le_iff hs (k : ℤ) hp).mpr (lt_of_not_le hcon)
        omega
      exact le_antisymm hle hge
    · intro heq
      refine ⟨(lowerBound_le_iff hs (k : ℤ) hp).mpr (le_of_eq heq.symm), ?_⟩
      by_contra hcon
      have := (upperBound_le_iff hs (k : ℤ) hp).mp (le_of_not_lt hcon)
      omega
  refine ⟨hlb, hub, ?_, ?_, ?_, ?_, ?_, hcov hi, ?_, ?_⟩
  · intro p hp hplt
    rw [hlb] at hplt
    have := List.not_of_lt_findIdx hplt
    simp only [decide_eq_false_iff_not, not_le] at this
    exact this
  · intro hp
    simp only [hlb] at hp ⊢
    rw [lowerBound] at hp
    have h2 := @List.findIdx_getElem _ (fun x => decide ((i : ℤ) ≤ x))
      s.slice_index_of_particle hp
    simpa [lowerBound] using h2
  · intro p hp hplt
    rw [hub] at hplt
    have := List.not_of_lt_findIdx hplt
    simp only [decide_eq_false_iff_not, not_lt] at this
    exact this
  · intro hp
    simp only [hub] at hp ⊢
    rw [upperBound] at hp
    have h2 := @List.findIdx_getElem _ (fun x => decide ((i : ℤ) < x))
      s.slice_index_of_particle hp
    simpa [upperBound] using h2
  · rw [hlb, hub]
    exact lowerBound_le_upperBound hs (i : ℤ)
  · intro j hne p hcontra
    obtain ⟨h1, h2, h3, h4⟩ := hcontra
    rcases lt_or_le j s.n_slices with hj | hj
    · have hp : p < s.slice_index_of_particle.length := by
        have : ubAt s i ≤ s.slice_index_of_particle.length := by
          rw [hub]
          exact List.findIdx_le_length (fun x => decide ((i : ℤ) < x))
        omega
      have hei := (hcov hi p hp).mp ⟨h1, h2⟩
      have hej := (hcov hj p hp).mp ⟨h3, h4⟩
      have : (i : ℤ) = (j : ℤ) := by rw [← hei, hej]
      exact hne (by exact_mod_cast this.symm)
    · rw [ubAt_of_ge s hj] at h4
      omega
  · intro hsucc
    rw [ubAt_eq s hi, lbAt_eq s hsucc]
    exact upperBound_eq_lowerBound_succ s.slice_index_of_particle i

/-- The spec's end-to-end scenario sliceset: `n_slices = 3`,
`slice_index_of_particle = [0,0,1,1,1,2]`, no bounds attached yet. -/
def sampleSliceSet : SliceSet :=
  ⟨3, [0, 0, 1, 1, 1, 2], none, none, none, none⟩

/-- Witness for C2 at the concrete sorted array `[0,0,1,1,1,2]` with
`n_slices = 3` and slice `i = 1`. -/
theorem slice_bounds_partition_witness :
    ([0, 0, 1, 1, 1, 2] : List ℤ).Sorted (· ≤ ·) ∧ 1 < 3 ∧ boundsSpec sampleSliceSet 1 :=
  ⟨by decide, by decide, slice_bounds_partition sampleSliceSet (by decide) 1 (by decide)⟩

/-- The deviation-product list has the length of its first argument when
the two arrays are aligned. -/
theorem devProds_length {a b : List ℚ} (h : a.length = b.length) :
    (devProds a b).length = a.length := by
  simp [devProds, h]

/-- Unfolding `covariance` through `devProds`. -/
theorem covariance_eq_pymean_devProds (a b : List ℚ) :
    covariance a b = pymean (devProds a b) * a.length / (a.length + 1) := rfl

/-- For aligned arrays the `n/(n+1)` scaling of the mean collapses to
dividing the deviation-product sum by `n + 1`. -/
theorem covariance_eq_sum_div_succ {a b : List ℚ} (h : a.length = b.length) :
    covariance a b = (devProds a b).sum / (a.length + 1) := by
  rw [covariance_eq_pymean_devProds, pymean, devProds_length h]
  rcases Nat.eq_zero_or_pos a.length with hn | hn
  · have : a = [] := List.length_eq_zero.mp hn
    subst this
    simp [devProds]
  · have hne : (a.length : ℚ) ≠ 0 := by
      exact_mod_cast Nat.pos_iff_ne_zero.mp hn
    field_simp

/-- C1: the whole-beam covariance is
`mean((a - mean(a)) * (b - mean(b))) * n / (n + 1)` — equivalently the
deviation-product sum divided by `n + 1`, which differs both from
Bessel's `n - 1` convention and from the plain `1/n` convention (shown at
`a = b = [0, 2]`) — and the per-slice covariance kernel applies the same
`m/(m+1)` convention inside each slice, `m` being the slice's particle
count. -/
theorem covariance_bias_convention :
    (∀ a b : List ℚ, covariance a b =
      pymean (devProds a b) * a.length / (a.length + 1)) ∧
    (∀ a b : List ℚ, a.length = b.length →
      covariance a b = (devProds a b).sum / (a.length + 1)) ∧
    covariance [0, 2] [0, 2] ≠ (devProds [0, 2] [0, 2]).sum / (2 - 1) ∧
    covariance [0, 2] [0, 2] ≠ (devProds [0, 2] [0, 2]).sum / 2 ∧
    (∀ (lower upper : List ℕ) (u v : List ℚ) (n i : ℕ), i < n → u.length = v.length →
      (sorted_cov_per_slice_kernel lower upper u v n).getD i 0 =
        pymean (devProds (extract u (lower.getD i 0) (upper.getD i 0))
            (extract v (lower.getD i 0) (upper.getD i 0))) *
          (extract u (lower.getD i 0) (upper.getD i 0)).length /
          ((extract u (lower.getD i 0) (upper.getD i 0)).length + 1)) := by
  have hval : covariance [0, 2] [0, 2] = 2 / 3 := by
    simp [covariance, pymean]
    norm_num
  have hsum : (devProds [0, 2] [0, 2]).sum = 2 := by
    simp [devProds, pymean]
    norm_num
  refine ⟨covariance_eq_pymean_devProds, fun a b h => covariance_eq_sum_div_succ h,
    ?_, ?_, ?_⟩
  · rw [hval, hsum]
    norm_num
  · rw [hval, hsum]
    norm_num
  · intro lower upper u v n i hin _
    rw [sorted_cov_per_slice_kernel, getD_map_range _ hin 0]
    exact covariance_eq_pymean_devProds _ _

/-- Witness for C1 at `a = [0, 2, 4]`, `b = [1, 5, 3]` (aligned lengths)
and at one concrete slice of the per-slice kernel. -/
theorem covariance_bias_convention_witness :
    ([0, 2, 4] : List ℚ).length = ([1, 5, 3] : List ℚ).length ∧
    covariance [0, 2, 4] [1, 5, 3] =
      (devProds [0, 2, 4] [1, 5, 3]).sum / (([0, 2, 4] : List ℚ).length + 1) ∧
    (sorted_cov_per_slice_kernel [0, 2] [2, 3] [1, 3, 2] [4, 0, 5] 2).getD 1 0 =
      pymean (devProds (extract [1, 3, 2] 2 3) (extract [4, 0, 5] 2 3)) *
        (extract ([1, 3, 2] : List ℚ) 2 3).length /
        ((extract ([1, 3, 2] : List ℚ) 2 3).length + 1) :=
  ⟨by decide, covariance_bias_convention.2.1 [0, 2, 4] [1, 5, 3] (by decide),
    covariance_bias_convention.2.2.2.2 [0, 2] [2, 3] [1, 3, 2] [4, 0, 5] 2 1
      (by decide) (by decide)⟩

/-- C3: the spec's end-to-end scenario.  For
`slice_index_of_particle = [0,0,1,1,1,2]` (`n_slices = 3`) and
`u = [1,3,2,4,6,10]`: bounds `[0,2,5]` / `[2,5,6]`, per-slice means
`[2,4,10]`, and per-slice standard deviations `1`, about `1.633`
(within `0.001`), and `0` for the singleton slice. -/
theorem end_to_end_scenario :
    (add_bounds_to_sliceset sampleSliceSet).lower_bounds = some [0, 2, 5] ∧
    (add_bounds_to_sliceset sampleSliceSet).upper_bounds = some [2, 5, 6] ∧
    (sorted_mean_per_slice sampleSliceSet [1, 3, 2, 4, 6, 10]).1 = [2, 4, 10] ∧
    (sorted_std_per_slice sampleSliceSet [1, 3, 2, 4, 6, 10]).1.getD 0 0 = 1 ∧
    |(sorted_std_per_slice sampleSliceSet [1, 3, 2, 4, 6, 10]).1.getD 1 0 -
      1633 / 1000| < 1 / 1000 ∧
    (sorted_std_per_slice sampleSliceSet [1, 3, 2, 4, 6, 10]).1.getD 2 0 = 0 := by
  have hadd : add_bounds_to_sliceset sampleSliceSet =
      ⟨3, [0, 0, 1, 1, 1, 2], some [0, 2, 5], some [2, 5, 6], some 0, some 6⟩ := by
    decide
  have hens : ensureBounds sampleSliceSet =
      ⟨3, [0, 0, 1, 1, 1, 2], some [0, 2, 5], some [2, 5, 6], some 0, some 6⟩ := by
    decide
  have hmean : (sorted_mean_per_slice sampleSliceSet [1, 3, 2, 4, 6, 10]).1 = [2, 4, 10] := by
    rw [sorted_mean_per_slice]
    simp only [hens]
    norm_num [sorted_mean_per_slice_kernel, List.range_succ, sliceMean, extract]
  have hv0 : slice_variance (extract [1, 3, 2, 4, 6, 10] 0 2) = 1 := by
    norm_num [slice_variance, sliceMean, extract]
  have hv1 : slice_variance (extract [1, 3, 2, 4, 6, 10] 2 5) = 8 / 3 := by
    norm_num [slice_variance, sliceMean, extract]
  have hv2 : slice_variance (extract [1, 3, 2, 4, 6, 10] 5 6) = 0 := by
    norm_num [slice_variance, sliceMean, extract]
  have hstd : (sorted_std_per_slice sampleSliceSet [1, 3, 2, 4, 6, 10]).1 =
      [Real.sqrt ((1 : ℚ) : ℝ), Real.sqrt (((8 : ℚ) / 3 : ℚ) : ℝ),
        Real.sqrt ((0 : ℚ) : ℝ)] := by
    rw [sorted_std_per_slice]
    simp only [hens]
    simp only [sorted_std_per_slice_kernel, List.range_succ]
    norm_num [hv0, hv1, hv2]
  refine ⟨by rw [hadd], by rw [hadd], hmean, ?_, ?_, ?_⟩
  · rw [hstd]
    norm_num [Real.sqrt_one]
  · rw [hstd]
    have hc : (((8 : ℚ) / 3 : ℚ) : ℝ) = 8 / 3 := by push_cast; ring
    simp only [List.getD_cons_succ, List.getD_cons_zero, hc]
    rw [abs_sub_lt_iff]
    constructor
    · have h1 : Real.sqrt (8 / 3) < 1634 / 1000 := by
        rw [Real.sqrt_lt' (by norm_num)]
        norm_num
      linarith
    · have h2 : (1632 : ℝ) / 1000 < Real.sqrt (8 / 3) := by
        rw [Real.lt_sqrt (by norm_num)]
        norm_num
      linarith
  · rw [hstd]
    norm_num [Real.sqrt_zero]

/-- Covariance of aligned arrays is symmetric in its arguments (the source
computes the mixed term as `covariance(up, u)`). -/
theorem covariance_comm {a b : List ℚ} (h : a.length = b.length) :
    covariance a b = covariance b a := by
  rw [covariance_eq_pymean_devProds, covariance_eq_pymean_devProds]
  have h1 : devProds a b = devProds b a := by
    unfold devProds
    exact List.zipWith_comm_of_comm _ (fun x y => mul_comm x y) _ _
  rw [h1, h]

theorem ensureBounds_n_slices (s : SliceSet) : (ensureBounds s).n_slices = s.n_slices := by
  unfold ensureBounds add_bounds_to_sliceset
  split <;> rfl

theorem ensureBounds_sip (s : SliceSet) :
    (ensureBounds s).slice_index_of_particle = s.slice_index_of_particle := by
  unfold ensureBounds add_bounds_to_sliceset
  split <;> rfl

theorem ensureBounds_idem (s : SliceSet) : ensureBounds (ensureBounds s) = ensureBounds s := by
  unfold ensureBounds
  by_cases hg : s.upper_bounds = none ∧ s.lower_bounds = none
  · simp only [hg, and_self, if_true]
    simp [add_bounds_to_sliceset]
  · simp [hg]

/-- A statistics operation whose receiving sliceset is the lazily
initialized one returns an unchanged sliceset. -/
theorem ensureBounds_of_initialized {s : SliceSet}
    (h : s.upper_bounds ≠ none ∨ s.lower_bounds ≠ none) : ensureBounds s = s := by
  unfold ensureBounds
  have hng : ¬(s.upper_bounds = none ∧ s.lower_bounds = none) := by
    rintro ⟨h1, h2⟩
    rcases h with h | h
    · exact h h1
    · exact h h2
  simp [hng]

theorem cov_kernel_length (lower upper : List ℕ) (u v : List ℚ) (n : ℕ) :
    (sorted_cov_per_slice_kernel lower upper u v n).length = n := by
  simp [sorted_cov_per_slice_kernel]

/-- The per-slice covariance array a successful `sorted_cov_per_slice`
call on sliceset `s` produces: the kernel run against the lazily
initialized bounds of `s`. -/
def covK (s : SliceSet) (x y : List ℚ) : List ℚ :=
  sorted_cov_per_slice_kernel ((ensureBounds s).lower_bounds.getD [])
    ((ensureBounds s).upper_bounds.getD []) x y (ensureBounds s).n_slices

theorem covK_length (s : SliceSet) (x y : List ℚ) :
    (covK s x y).length = (ensureBounds s).n_slices :=
  cov_kernel_length _ _ _ _ _

theorem covK_ensure (s : SliceSet) (x y : List ℚ) :
    covK (ensureBounds s) x y = covK s x y := by
  unfold covK
  rw [ensureBounds_idem]

/-- The per-slice covariance operation succeeds on aligned value arrays,
returning the kernel result together with the lazily initialized
sliceset. -/
theorem sorted_cov_per_slice_ok {s : SliceSet} {x y : List ℚ}
    (hx : x.length = s.slice_index_of_particle.length)
    (hy : y.length = s.slice_index_of_particle.length) :
    sorted_cov_per_slice s x y = (.ok (covK s x y), ensureBounds s) := by
  simp [sorted_cov_per_slice, covK, hx, hy]

theorem map_sqrt_getD {l : List ℚ} {i : ℕ} (h : i < l.length) :
    ((l.map (fun q => Real.sqrt ((q : ℚ) : ℝ))).getD i 0) =
      Real.sqrt ((l.getD i 0 : ℚ) : ℝ) := by
  have hml : i < (l.map (fun q => Real.sqrt ((q : ℚ) : ℝ))).length := by simpa using h
  rw [List.getD_eq_getElem _ _ hml, List.getD_eq_getElem _ _ h]
  simp

theorem zipWith_getD {f : ℚ → ℚ → ℚ} {a b : List ℚ} {i : ℕ}
    (ha : i < a.length) (hb : i < b.length) :
    (List.zipWith f a b).getD i 0 = f (a.getD i 0) (b.getD i 0) := by
  have hl : i < (List.zipWith f a b).length := by
    rw [List.length_zipWith]
    omega
  rw [List.getD_eq_getElem _ _ hl, List.getD_eq_getElem _ _ ha, List.getD_eq_getElem _ _ hb]
  simp

/-- The elementwise combination `sorted_emittance_per_slice` performs once
all six covariance arrays are available. -/
noncomputable def emittance_result_lists (l1 l2 l3 l4 l5 l6 : List ℚ) : List ℝ :=
  (ewSub (ewMul (ewSub l1 (ewDiv (ewMul l4 l4) l6)) (ewSub l2 (ewDiv (ewMul l5 l5) l6)))
    (ewMul (ewSub l3 (ewDiv (ewMul l4 l5) l6)) (ewSub l3 (ewDiv (ewMul l4 l5) l6)))).map
      (fun q => Real.sqrt ((q : ℚ) : ℝ))

/-- On six successful covariance results the composition step succeeds
with the elementwise formula. -/
theorem emittance_compose_ok (l1 l2 l3 l4 l5 l6 : List ℚ) :
    emittance_compose (.ok l1) (.ok l2) (.ok l3) (.ok l4) (.ok l5) (.ok l6) =
      .ok (emittance_result_lists l1 l2 l3 l4 l5 l6) := rfl

/-- Elementwise reading of the composed per-slice emittance array. -/
theorem emittance_elementwise (l1 l2 l3 l4 l5 l6 : List ℚ) (n i : ℕ)
    (h1 : l1.length = n) (h2 : l2.length = n) (h3 : l3.length = n)
    (h4 : l4.length = n) (h5 : l5.length = n) (h6 : l6.length = n) (hi : i < n) :
    (emittance_result_lists l1 l2 l3 l4 l5 l6).getD i 0 =
    Real.sqrt ((((l1.getD i 0 - l4.getD i 0 * l4.getD i 0 / l6.getD i 0) *
      (l2.getD i 0 - l5.getD i 0 * l5.getD i 0 / l6.getD i 0) -
      (l3.getD i 0 - l4.getD i 0 * l5.getD i 0 / l6.getD i 0) *
      (l3.getD i 0 - l4.getD i 0 * l5.getD i 0 / l6.getD i 0)) : ℚ) : ℝ) := by
  unfold emittance_result_lists
  have hlSub : ∀ a b : List ℚ, (ewSub a b).length = min a.length b.length := by
    intro a b
    simp [ewSub, List.length_zipWith]
  have hlMul : ∀ a b : List ℚ, (ewMul a b).length = min a.length b.length := by
    intro a b
    simp [ewMul, List.length_zipWith]
  have hlDiv : ∀ a b : List ℚ, (ewDiv a b).length = min a.length b.length := by
    intro a b
    simp [ewDiv, List.length_zipWith]
  have htop : (ewSub (ewMul (ewSub l1 (ewDiv (ewMul l4 l4) l6))
      (ewSub l2 (ewDiv (ewMul l5 l5) l6)))
      (ewMul (ewSub l3 (ewDiv (ewMul l4 l5) l6))
        (ewSub l3 (ewDiv (ewMul l4 l5) l6)))).length = n := by
    simp only [hlSub, hlMul, hlDiv]
    omega
  rw [map_sqrt_getD (by omega)]
  rw [List.getD_eq_getElem _ _ (show i < (ewSub (ewMul (ewSub l1 (ewDiv (ewMul l4 l4) l6))
    (ewSub l2 (ewDiv (ewMul l5 l5) l6))) (ewMul (ewSub l3 (ewDiv (ewMul l4 l5) l6))
    (ewSub l3 (ewDiv (ewMul l4 l5) l6)))).length by omega)]
  rw [List.getD_eq_getElem _ _ (show i < l1.length by omega),
    List.getD_eq_getElem _ _ (show i < l2.length by omega),
    List.getD_eq_getElem _ _ (show i < l3.length by omega),
    List.getD_eq_getElem _ _ (show i < l4.length by omega),
    List.getD_eq_getElem _ _ (show i < l5.length by omega),
    List.getD_eq_getElem _ _ (show i < l6.length by omega)]
  simp only [ewSub, ewMul, ewDiv, List.getElem_zipWith]

/-- The emittance formula of the spec, applied to a covariance sextuplet:
`sqrt(σ11·σ22 - σ12²)` with the dispersion corrections. -/
noncomputable def emittanceFormula (cuu cupup cuup cudp cupdp cdpdp : ℚ) : ℝ :=
  Real.sqrt ((((cuu - cudp ^ 2 / cdpdp) * (cupup - cupdp ^ 2 / cdpdp) -
    (cuup - cudp * cupdp / cdpdp) ^ 2) : ℚ) : ℝ)

/-- The C4 property at given inputs: the whole-beam estimator returns
`sqrt(σ11·σ22 - σ12²)` built from covariances with the dispersion terms
(defaulting to `0, 0, 1` without `dp`, collapsing to
`sqrt(cov(u,u)·cov(up,up) - cov(u,up)²)`), and the per-slice variant
applies the same formula elementwise to the per-slice covariances. -/
def emittanceClaim (u up dpv : List ℚ) (s : SliceSet) (i : ℕ) : Prop :=
  emittance u up (some dpv) = emittanceFormula (covariance u u) (covariance up up)
    (covariance u up) (covariance u dpv) (covariance up dpv) (covariance dpv dpv) ∧
  emittance u up none =
    Real.sqrt ((covariance u u * covariance up up - covariance u up ^ 2 : ℚ) : ℝ) ∧
  (∃ cuu cupup cuup cudp cupdp cdpdp L L2,
    (sorted_cov_per_slice s u u).1 = .ok cuu ∧
    (sorted_cov_per_slice s up up).1 = .ok cupup ∧
    (sorted_cov_per_slice s u up).1 = .ok cuup ∧
    (sorted_cov_per_slice s u dpv).1 = .ok cudp ∧
    (sorted_cov_per_slice s up dpv).1 = .ok cupdp ∧
    (sorted_cov_per_slice s dpv dpv).1 = .ok cdpdp ∧
    (sorted_emittance_per_slice s u up (some dpv)).1 = .ok L ∧
    L.getD i 0 = emittanceFormula (cuu.getD i 0) (cupup.getD i 0) (cuup.getD i 0)
      (cudp.getD i 0) (cupdp.getD i 0) (cdpdp.getD i 0) ∧
    (sorted_emittance_per_slice s u up none).1 = .ok L2 ∧
    L2.getD i 0 =
      Real.sqrt ((cuu.getD i 0 * cupup.getD i 0 - cuup.getD i 0 ^ 2 : ℚ) : ℝ))

/-- C4: the emittance estimator implements the spec's covariance formula,
with the dispersion terms defaulting to `0, 0, 1` when `dp` is omitted,
both for the whole beam and elementwise per slice. -/
theorem emittance_formula_correct (u up dpv : List ℚ) (s : SliceSet) (i : ℕ)
    (hlen : up.length = u.length)
    (hu : u.length = s.slice_index_of_particle.length)
    (hdp : dpv.length = s.slice_index_of_particle.length)
    (hi : i < s.n_slices) :
    emittanceClaim u up dpv s i := by
  have hup : up.length = s.slice_index_of_particle.length := by omega
  have hcc : covariance up u = covariance u up := covariance_comm hlen
  refine ⟨?_, ?_, ?_⟩
  · simp only [emittance, emittanceFormula]
    congr 1
    push_cast
    rw [hcc]
    ring
  · simp only [emittance]
    congr 1
    push_cast
    rw [hcc]
    ring
  · have hsipt : (ensureBounds s).slice_index_of_particle = s.slice_index_of_particle :=
      ensureBounds_sip s
    have hnst : (ensureBounds s).n_slices = s.n_slices := ensureBounds_n_slices s
    have hidem : ensureBounds (ensureBounds s) = ensureBounds s := ensureBounds_idem s
    have hu' : u.length = (ensureBounds s).slice_index_of_particle.length := by
      rw [hsipt]
      exact hu
    have hup' : up.length = (ensureBounds s).slice_index_of_particle.length := by
      rw [hsipt]
      exact hup
    have hdp' : dpv.length = (ensureBounds s).slice_index_of_particle.length := by
      rw [hsipt]
      exact hdp
    have e1 := sorted_cov_per_slice_ok hu hu
    have e2 := sorted_cov_per_slice_ok hup' hup'
    have e3 := sorted_cov_per_slice_ok hu' hup'
    have e4 := sorted_cov_per_slice_ok hu' hdp'
    have e5 := sorted_cov_per_slice_ok hup' hdp'
    have e6 := sorted_cov_per_slice_ok hdp' hdp'
    rw [hidem, covK_ensure] at e2 e3 e4 e5 e6
    have f2 := sorted_cov_per_slice_ok hup hup
    have f3 := sorted_cov_per_slice_ok hu hup
    have f4 := sorted_cov_per_slice_ok hu hdp
    have f5 := sorted_cov_per_slice_ok hup hdp
    have f6 := sorted_cov_per_slice_ok hdp hdp
    have hiE : i < (ensureBounds s).n_slices := by omega
    have hLs : (sorted_emittance_per_slice s u up (some dpv)).1 =
        .ok (emittance_result_lists (covK s u u) (covK s up up) (covK s u up)
          (covK s u dpv) (covK s up dpv) (covK s dpv dpv)) := by
      simp only [sorted_emittance_per_slice, e1, e2, e3, e4, e5, e6, emittance_compose_ok]
    have hL2s : (sorted_emittance_per_slice s u up none).1 =
        .ok (emittance_result_lists (covK s u u) (covK s up up) (covK s u up)
          (List.replicate (ensureBounds s).n_slices 0)
          (List.replicate (ensureBounds s).n_slices 0)
          (List.replicate (ensureBounds s).n_slices 1)) := by
      simp only [sorted_emittance_per_slice, e1, e2, e3, emittance_compose_ok]
    have hLd : (emittance_result_lists (covK s u u) (covK s up up) (covK s u up)
        (covK s u dpv) (covK s up dpv) (covK s dpv dpv)).getD i 0 =
        emittanceFormula ((covK s u u).getD i 0) ((covK s up up).getD i 0)
          ((covK s u up).getD i 0) ((covK s u dpv).getD i 0)
          ((covK s up dpv).getD i 0) ((covK s dpv dpv).getD i 0) := by
      rw [emittance_elementwise _ _ _ _ _ _ (ensureBounds s).n_slices i
        (covK_length s u u) (covK_length s up up) (covK_length s u up)
        (covK_length s u dpv) (covK_length s up dpv) (covK_length s dpv dpv) hiE]
      unfold emittanceFormula
      congr 1
      push_cast
      ring
    have hrep0 : (List.replicate (ensureBounds s).n_slices (0 : ℚ)).length =
        (ensureBounds s).n_slices := List.length_replicate _ _
    have hrep1 : (List.replicate (ensureBounds s).n_slices (1 : ℚ)).length =
        (ensureBounds s).n_slices := List.length_replicate _ _
    have hL2d : (emittance_result_lists (covK s u u) (covK s up up) (covK s u up)
        (List.replicate (ensureBounds s).n_slices 0)
        (List.replicate (ensureBounds s).n_slices 0)
        (List.replicate (ensureBounds s).n_slices 1)).getD i 0 =
        Real.sqrt (((covK s u u).getD i 0 * (covK s up up).getD i 0 -
          (covK s u up).getD i 0 ^ 2 : ℚ) : ℝ) := by
      rw [emittance_elementwise _ _ _ _ _ _ (ensureBounds s).n_slices i
        (covK_length s u u) (covK_length s up up) (covK_length s u up)
        hrep0 hrep0 hrep1 hiE]
      have hg0 : (List.replicate (ensureBounds s).n_slices (0 : ℚ)).getD i 0 = 0 := by
        rw [List.getD_eq_getElem _ _ (by omega)]
        simp
      have hg1 : (List.replicate (ensureBounds s).n_slices (1 : ℚ)).getD i 0 = 1 := by
        rw [List.getD_eq_getElem _ _ (by omega)]
        simp
      rw [hg0, hg1]
      congr 1
      push_cast
      ring
    exact ⟨covK s u u, covK s up up, covK s u up, covK s u dpv, covK s up dpv,
      covK s dpv dpv, _, _,
      congrArg Prod.fst e1, congrArg Prod.fst f2, congrArg Prod.fst f3,
      congrArg Prod.fst f4, congrArg Prod.fst f5, congrArg Prod.fst f6,
      hLs, hLd, hL2s, hL2d⟩

/-- Witness for C4 at concrete aligned arrays over `sampleSliceSet`. -/
theorem emittance_formula_correct_witness :
    ([2, 4, 6, 8, 10, 12] : List ℚ).length = ([1, 3, 2, 4, 6, 10] : List ℚ).length ∧
    ([1, 3, 2, 4, 6, 10] : List ℚ).length =
      sampleSliceSet.slice_index_of_particle.length ∧
    ([1, 1, 2, 2, 1, 1] : List ℚ).length =
      sampleSliceSet.slice_index_of_particle.length ∧
    0 < sampleSliceSet.n_slices ∧
    emittanceClaim [1, 3, 2, 4, 6, 10] [2, 4, 6, 8, 10, 12] [1, 1, 2, 2, 1, 1]
      sampleSliceSet 0 :=
  ⟨by decide, by decide, by decide, by decide,
    emittance_formula_correct [1, 3, 2, 4, 6, 10] [2, 4, 6, 8, 10, 12]
      [1, 1, 2, 2, 1, 1] sampleSliceSet 0 (by decide) (by decide) (by decide) (by decide)⟩

/-- The C5 property at a fresh sliceset `s` (no bounds attached) and value
arrays `u`, `v`: the shared lazy-initialization step of every statistics
operation attaches both bound arrays; every operation's resulting sliceset
is exactly that lazily initialized one; and on any sliceset that already
carries bounds every operation leaves the sliceset unchanged (the cache is
reused, never recomputed or mutated). -/
def cachingClaim (s : SliceSet) (u v : List ℚ) : Prop :=
  (ensureBounds s = add_bounds_to_sliceset s ∧
    (add_bounds_to_sliceset s).lower_bounds ≠ none ∧
    (add_bounds_to_sliceset s).upper_bounds ≠ none) ∧
  ((sorted_mean_per_slice s u).2 = ensureBounds s ∧
    (sorted_std_per_slice s u).2 = ensureBounds s ∧
    (sorted_cov_per_slice s u v).2 = ensureBounds s ∧
    (particles_within_cuts s).2 = ensureBounds s ∧
    (macroparticles_per_slice s).2 = ensureBounds s) ∧
  (∀ t : SliceSet, t.lower_bounds ≠ none ∨ t.upper_bounds ≠ none →
    (sorted_mean_per_slice t u).2 = t ∧
    (sorted_std_per_slice t u).2 = t ∧
    (sorted_cov_per_slice t u v).2 = t ∧
    (particles_within_cuts t).2 = t ∧
    (macroparticles_per_slice t).2 = t)

/-- C5: the bounds cache is computed at most once — the first statistics
operation against a fresh sliceset attaches it, and every later operation
against the same sliceset reuses it unchanged. -/
theorem bounds_cached_once (s : SliceSet) (u v : List ℚ)
    (hl : s.lower_bounds = none) (hub : s.upper_bounds = none) :
    cachingClaim s u v := by
  refine ⟨⟨?_, ?_, ?_⟩, ⟨rfl, rfl, rfl, rfl, rfl⟩, ?_⟩
  · unfold ensureBounds
    simp [hl, hub]
  · simp [add_bounds_to_sliceset]
  · simp [add_bounds_to_sliceset]
  · intro t ht
    have he : ensureBounds t = t := by
      refine ensureBounds_of_initialized ?_
      tauto
    exact ⟨he, he, he, he, he⟩

/-- Witness for C5 at the fresh `sampleSliceSet`. -/
theorem bounds_cached_once_witness :
    sampleSliceSet.lower_bounds = none ∧ sampleSliceSet.upper_bounds = none ∧
    cachingClaim sampleSliceSet [1, 3, 2, 4, 6, 10] [2, 4, 6, 8, 10, 12] :=
  ⟨by decide, by decide,
    bounds_cached_once sampleSliceSet [1, 3, 2, 4, 6, 10] [2, 4, 6, 8, 10, 12]
      (by decide) (by decide)⟩

/-- The lower-bound search at query 0 never exceeds the upper-bound search
at a nonnegative query, on a sorted list. -/
theorem lowerBound_zero_le_upperBound {l : List ℤ} (hs : l.Sorted (· ≤ ·))
    {v : ℤ} (hv : 0 ≤ v) : lowerBound l 0 ≤ upperBound l v := by
  have hPl : ∀ x y : ℤ, x ≤ y → decide ((0 : ℤ) ≤ x) = true → decide ((0 : ℤ) ≤ y) = true := by
    intro x y hxy hx
    simp only [decide_eq_true_eq] at hx ⊢
    exact le_trans hx hxy
  have hPu : ∀ x y : ℤ, x ≤ y → decide (v < x) = true → decide (v < y) = true := by
    intro x y hxy hx
    simp only [decide_eq_true_eq] at hx ⊢
    exact lt_of_lt_of_le hx hxy
  rw [lowerBound, upperBound, sorted_findIdx_eq_countP hPl hs,
    sorted_findIdx_eq_countP hPu hs]
  refine List.countP_mono_left (fun x _ h => ?_)
  simp only [Bool.not_eq_eq_eq_not, Bool.not_true, decide_eq_false_iff_not, not_le,
    not_lt] at h ⊢
  omega

/-- C9: on a fresh sliceset with a sorted index array,
`particles_within_cuts` is exactly the contiguous integer range from
`lower_bounds[0]` (inclusive) to `upper_bounds[n_slices - 1]`
(exclusive). -/
theorem particles_within_cuts_occupied_range (s : SliceSet)
    (hs : s.slice_index_of_particle.Sorted (· ≤ ·))
    (hl : s.lower_bounds = none) (hub : s.upper_bounds = none)
    (hn : 0 < s.n_slices) :
    (particles_within_cuts s).1 =
      List.range' (lowerBound s.slice_index_of_particle 0)
        (upperBound s.slice_index_of_particle ((s.n_slices - 1 : ℕ) : ℤ) -
          lowerBound s.slice_index_of_particle 0) ∧
    ∀ k : ℕ, k ∈ (particles_within_cuts s).1 ↔
      (lowerBound s.slice_index_of_particle 0 ≤ k ∧
        k < upperBound s.slice_index_of_particle ((s.n_slices - 1 : ℕ) : ℤ)) := by
  have hens : ensureBounds s = add_bounds_to_sliceset s := by
    unfold ensureBounds
    simp [hl, hub]
  have hpb : (ensureBounds s).pidx_begin.getD 0 = lowerBound s.slice_index_of_particle 0 := by
    rw [hens]
    simp only [add_bounds_to_sliceset, Option.getD_some]
    rw [getD_map_range _ hn 0]
    norm_num
  have hpe : (ensureBounds s).pidx_end.getD 0 =
      upperBound s.slice_index_of_particle ((s.n_slices - 1 : ℕ) : ℤ) := by
    rw [hens]
    simp only [add_bounds_to_sliceset, Option.getD_some]
    rw [getD_map_range _ (by omega : s.n_slices - 1 < s.n_slices) 0]
  have hle : lowerBound s.slice_index_of_particle 0 ≤
      upperBound s.slice_index_of_particle ((s.n_slices - 1 : ℕ) : ℤ) :=
    lowerBound_zero_le_upperBound hs (by positivity)
  constructor
  · simp only [particles_within_cuts]
    rw [hpb, hpe]
  · intro k
    simp only [particles_within_cuts]
    rw [hpb, hpe, List.mem_range'_1]
    omega

/-- Witness for C9 at the fresh, sorted `sampleSliceSet`. -/
theorem particles_within_cuts_occupied_range_witness :
    ([0, 0, 1, 1, 1, 2] : List ℤ).Sorted (· ≤ ·) ∧
    sampleSliceSet.lower_bounds = none ∧ sampleSliceSet.upper_bounds = none ∧
    0 < sampleSliceSet.n_slices ∧
    ((particles_within_cuts sampleSliceSet).1 =
      List.range' (lowerBound sampleSliceSet.slice_index_of_particle 0)
        (upperBound sampleSliceSet.slice_index_of_particle
            ((sampleSliceSet.n_slices - 1 : ℕ) : ℤ) -
          lowerBound sampleSliceSet.slice_index_of_particle 0) ∧
    ∀ k : ℕ, k ∈ (particles_within_cuts sampleSliceSet).1 ↔
      (lowerBound sampleSliceSet.slice_index_of_particle 0 ≤ k ∧
        k < upperBound sampleSliceSet.slice_index_of_particle
          ((sampleSliceSet.n_slices - 1 : ℕ) : ℤ))) :=
  ⟨by decide, by decide, by decide, by decide,
    particles_within_cuts_occupied_range sampleSliceSet (by decide) (by decide)
      (by decide) (by decide)⟩

/-- C6 (evaluation at the failing input): on an unsupported dtype
(itemsize 4 with kind 'f', or itemsize 8 with kind 'i'), `argsort` raises
`NameError` — its unsupported-dtype branch executes `print array.dtype`
but no name `array` is bound in `argsort` (the parameter is `to_sort`) —
rather than the `TypeError` the spec prescribes; `apply_permutation`,
whose parameter really is named `array`, does raise `TypeError`. -/
theorem argsort_unsupported_dtype_raises_nameError :
    argsort ⟨⟨4, 'f'⟩, [1, 0]⟩ = .error .nameError ∧
    argsort ⟨⟨8, 'i'⟩, [1, 0]⟩ = .error .nameError ∧
    argsort ⟨⟨4, 'f'⟩, [1, 0]⟩ ≠ .error .typeError ∧
    apply_permutation ⟨⟨4, 'f'⟩, [1, 0]⟩ ⟨⟨4, 'i'⟩, [0, 1]⟩ = .error .typeError := by
  refine ⟨rfl, rfl, ?_, rfl⟩
  intro hcon
  rw [show argsort ⟨⟨4, 'f'⟩, [1, 0]⟩ = (Except.error PyErr.nameError : Except PyErr GArr)
    from rfl] at hcon
  injection hcon with hpe
  simp at hpe

/-- C7: a permutation whose length differs from the array it is applied to
makes `apply_permutation` fail with the shape-mismatch error, and value
arrays whose length differs from the slicing's particle count make the
per-slice covariance fail with the shape-mismatch error; neither returns
any partial result. -/
theorem shape_mismatch_fail_fast (array perm : GArr) (s : SliceSet) (u v : List ℚ)
    (hpd : perm.dtype = int32)
    (had : array.dtype = float64 ∨ array.dtype = int32)
    (hlenmm : perm.data.length ≠ array.data.length)
    (hcovmm : u.length ≠ s.slice_index_of_particle.length ∨
      v.length ≠ s.slice_index_of_particle.length) :
    apply_permutation array perm = .error .shapeMismatch ∧
    (sorted_cov_per_slice s u v).1 = .error .shapeMismatch := by
  constructor
  · unfold apply_permutation
    have h1 : perm.dtype.itemsize = 4 ∧ perm.dtype.kind = 'i' := by
      rw [hpd]
      exact ⟨rfl, rfl⟩
    rw [if_pos h1]
    rcases had with h | h
    · rw [if_pos (by rw [h]; exact ⟨rfl, rfl⟩)]
      unfold thrust_apply_sort_perm
      rw [if_neg hlenmm]
    · have hnotf : ¬(array.dtype.itemsize = 8 ∧ array.dtype.kind = 'f') := by
        rw [h]
        rintro ⟨h8, _⟩
        exact absurd h8 (by decide)
      rw [if_neg hnotf, if_pos (by rw [h]; exact ⟨rfl, rfl⟩)]
      unfold thrust_apply_sort_perm
      rw [if_neg hlenmm]
  · have hng : ¬(u.length = s.slice_index_of_particle.length ∧
        v.length = s.slice_index_of_particle.length) := by tauto
    simp [sorted_cov_per_slice, hng]

/-- Witness for C7 at a length-1 permutation against a length-2 array and
a length-1 value array against the 6-particle `sampleSliceSet`. -/
theorem shape_mismatch_fail_fast_witness :
    (GArr.mk int32 [0]).dtype = int32 ∧
    ((GArr.mk float64 [1, 2]).dtype = float64 ∨ (GArr.mk float64 [1, 2]).dtype = int32) ∧
    (GArr.mk int32 [0]).data.length ≠ (GArr.mk float64 [1, 2]).data.length ∧
    (([9] : List ℚ).length ≠ sampleSliceSet.slice_index_of_particle.length ∨
      ([1, 2, 3, 4, 5, 6] : List ℚ).length ≠
        sampleSliceSet.slice_index_of_particle.length) ∧
    apply_permutation ⟨float64, [1, 2]⟩ ⟨int32, [0]⟩ = .error .shapeMismatch ∧
    (sorted_cov_per_slice sampleSliceSet [9] [1, 2, 3, 4, 5, 6]).1 =
      .error .shapeMismatch :=
  ⟨rfl, Or.inl rfl, by decide, by decide,
    shape_mismatch_fail_fast ⟨float64, [1, 2]⟩ ⟨int32, [0]⟩ sampleSliceSet [9]
      [1, 2, 3, 4, 5, 6] rfl (Or.inl rfl) (by decide) (by decide)⟩

/-- Applying a dtype-checked permutation stored as an int32 array computes
`array[permutation]` with the natural-number indices. -/
theorem apply_permutation_ok (dta : DType) (a : List ℚ) (r : List ℕ)
    (hdt : dta = float64 ∨ dta = int32) (hlen : r.length = a.length) :
    apply_permutation ⟨dta, a⟩ ⟨int32, r.map (fun n : ℕ => (n : ℚ))⟩ =
      .ok ⟨dta, r.map (fun i : ℕ => a.getD i 0)⟩ := by
  have hdata : applyPermData a (r.map (fun n : ℕ => (n : ℚ))) = r.map (fun i : ℕ => a.getD i 0) := by
    unfold applyPermData
    rw [List.map_map]
    refine List.map_congr_left (fun n _ => ?_)
    simp [Rat.num_natCast]
  have hthrust : thrust_apply_sort_perm ⟨dta, a⟩ ⟨int32, r.map (fun n : ℕ => (n : ℚ))⟩ =
      .ok ⟨dta, r.map (fun i : ℕ => a.getD i 0)⟩ := by
    unfold thrust_apply_sort_perm
    rw [if_pos (by simpa using hlen)]
    rw [hdata]
  unfold apply_permutation
  rw [if_pos ⟨rfl, rfl⟩]
  rcases hdt with h | h <;> subst h
  · rw [if_pos ⟨rfl, rfl⟩]
    exact hthrust
  · rw [if_neg (by simp [int32]), if_pos ⟨rfl, rfl⟩]
    exact hthrust

/-- C8: applying a permutation of the index range and then its inverse
permutation through `apply_permutation` returns the original array. -/
theorem apply_permutation_roundtrip (dt : DType) (d : List ℚ) (p q : List ℕ)
    (hdt : dt = float64 ∨ dt = int32)
    (hp : p.length = d.length) (hq : q.length = d.length)
    (hinv : ∀ j, j < d.length → q.getD j 0 < d.length ∧ p.getD (q.getD j 0) 0 = j) :
    ∃ b c : GArr,
      apply_permutation ⟨dt, d⟩ ⟨int32, p.map (fun n : ℕ => (n : ℚ))⟩ = .ok b ∧
      apply_permutation b ⟨int32, q.map (fun n : ℕ => (n : ℚ))⟩ = .ok c ∧
      c = ⟨dt, d⟩ := by
  have h1 := apply_permutation_ok dt d p hdt hp
  have hblen : (p.map (fun i : ℕ => d.getD i 0)).length = d.length := by
    simpa using hp
  have h2 := apply_permutation_ok dt (p.map (fun i : ℕ => d.getD i 0)) q hdt
    (by rw [hblen]; exact hq)
  refine ⟨_, _, h1, h2, ?_⟩
  have hdata : q.map (fun j : ℕ => (p.map (fun i : ℕ => d.getD i 0)).getD j 0) = d := by
    refine List.ext_getElem (by simpa using hq) ?_
    intro k hk1 hk2
    have hkq : k < q.length := by simpa using hk1
    have hkd : k < d.length := hk2
    obtain ⟨hqlt, hpq⟩ := hinv k hkd
    rw [List.getElem_map]
    have hql : q[k] = q.getD k 0 := by
      rw [List.getD_eq_getElem _ _ hkq]
    rw [hql]
    have hqp : q.getD k 0 < (p.map (fun i : ℕ => d.getD i 0)).length := by
      rw [hblen]
      exact hqlt
    rw [List.getD_eq_getElem _ _ hqp, List.getElem_map]
    have hpl : q.getD k 0 < p.length := by
      rw [hp]
      exact hqlt
    have hpe : p[q.getD k 0] = p.getD (q.getD k 0) 0 := by
      rw [List.getD_eq_getElem _ _ hpl]
    rw [hpe, hpq, List.getD_eq_getElem _ _ hkd]
  rw [hdata]

/-- Witness for C8 at `d = [5, 7, 9]`, `p = [2, 0, 1]`, `q = [1, 2, 0]`. -/
theorem apply_permutation_roundtrip_witness :
    (float64 = float64 ∨ float64 = int32) ∧
    ([2, 0, 1] : List ℕ).length = ([5, 7, 9] : List ℚ).length ∧
    ([1, 2, 0] : List ℕ).length = ([5, 7, 9] : List ℚ).length ∧
    (∀ j, j < ([5, 7, 9] : List ℚ).length →
      ([1, 2, 0] : List ℕ).getD j 0 < ([5, 7, 9] : List ℚ).length ∧
      ([2, 0, 1] : List ℕ).getD (([1, 2, 0] : List ℕ).getD j 0) 0 = j) ∧
    (∃ b c : GArr,
      apply_permutation ⟨float64, [5, 7, 9]⟩
        ⟨int32, ([2, 0, 1] : List ℕ).map (fun n : ℕ => (n : ℚ))⟩ = .ok b ∧
      apply_permutation b ⟨int32, ([1, 2, 0] : List ℕ).map (fun n : ℕ => (n : ℚ))⟩ = .ok c ∧
      c = ⟨float64, [5, 7, 9]⟩) :=
  ⟨Or.inl rfl, by decide, by decide, by decide,
    apply_permutation_roundtrip float64 [5, 7, 9] [2, 0, 1] [1, 2, 0] (Or.inl rfl)
      (by decide) (by decide) (by decide)⟩

theorem readH_append_lt {h : Heap} (t : List GArr) {q : ℕ} (hq : q < h.length) :
    readH (h ++ t) q = readH h q := by
  simp only [readH, List.getD, List.get?_eq_getElem?]
  rw [List.getElem?_append_left hq]

theorem readH_writeH_ne {h : Heap} {w q : ℕ} (a : GArr) (hne : w ≠ q) :
    readH (writeH h w a) q = readH h q := by
  simp only [readH, writeH, List.getD, List.get?_eq_getElem?]
  rw [List.getElem?_set_ne hne]

/-- C10: `argsort` sorts a copy — every pre-existing heap cell, in
particular the argument, is unchanged — and `apply_permutation` writes
only into a freshly allocated cell, mutating neither the source array nor
the permutation array. -/
theorem argsort_applyperm_frame (h : Heap) (r ar pr : ℕ)
    (hr : r < h.length)
    (hdt : (readH h r).dtype = float64 ∨ (readH h r).dtype = int32)
    (har : ar < h.length) (hpr : pr < h.length)
    (hpd : (readH h pr).dtype = int32)
    (had : (readH h ar).dtype = float64 ∨ (readH h ar).dtype = int32)
    (hlen : (readH h pr).data.length = (readH h ar).data.length) :
    (∃ h1 p1, argsortH h r = .ok (h1, p1) ∧
      ∀ q, q < h.length → readH h1 q = readH h q) ∧
    (∃ h2 t, apply_permutationH h ar pr = .ok (h2, t) ∧
      (∀ q, q < h.length → readH h2 q = readH h q) ∧
      h.length ≤ t ∧ ar ≠ t ∧ pr ≠ t) := by
  constructor
  · have hpres : ∀ q, q < h.length →
        readH (thrust_get_sort_perm_H
          ((h ++ [(⟨int32, List.replicate (readH h r).data.length 0⟩ : GArr)]) ++ [readH h r])
          ((h ++ [(⟨int32, List.replicate (readH h r).data.length 0⟩ : GArr)]).length)
          h.length) q = readH h q := by
      intro q hq
      simp only [thrust_get_sort_perm_H]
      rw [readH_writeH_ne _ (by omega : h.length ≠ q)]
      rw [readH_writeH_ne _ (by simp; omega)]
      rw [readH_append_lt _ (by simp; omega)]
      rw [readH_append_lt _ hq]
    rcases hdt with hc | hc
    · refine ⟨_, h.length, ?_, hpres⟩
      unfold argsortH
      rw [if_pos (show (readH h r).dtype.itemsize = 8 ∧ (readH h r).dtype.kind = 'f' by
        rw [hc]; exact ⟨rfl, rfl⟩)]
    · refine ⟨_, h.length, ?_, hpres⟩
      unfold argsortH
      rw [if_neg (show ¬((readH h r).dtype.itemsize = 8 ∧ (readH h r).dtype.kind = 'f') by
        rw [hc]; rintro ⟨h8, _⟩; exact absurd h8 (by decide))]
      rw [if_pos (show (readH h r).dtype.itemsize = 4 ∧ (readH h r).dtype.kind = 'i' by
        rw [hc]; exact ⟨rfl, rfl⟩)]
  · have hcond : (readH (h ++ [(⟨(readH h ar).dtype, List.replicate (readH h ar).data.length 0⟩ : GArr)]) pr).data.length =
        (readH (h ++ [(⟨(readH h ar).dtype, List.replicate (readH h ar).data.length 0⟩ : GArr)]) ar).data.length := by
      rw [readH_append_lt _ hpr, readH_append_lt _ har]
      exact hlen
    have hpres2 : ∀ q, q < h.length →
        readH (writeH (h ++ [(⟨(readH h ar).dtype, List.replicate (readH h ar).data.length 0⟩ : GArr)]) h.length
          ⟨(readH (h ++ [(⟨(readH h ar).dtype, List.replicate (readH h ar).data.length 0⟩ : GArr)]) h.length).dtype,
            applyPermData (readH (h ++ [(⟨(readH h ar).dtype, List.replicate (readH h ar).data.length 0⟩ : GArr)]) ar).data
              (readH (h ++ [(⟨(readH h ar).dtype, List.replicate (readH h ar).data.length 0⟩ : GArr)]) pr).data⟩) q = readH h q := by
      intro q hq
      rw [readH_writeH_ne _ (by omega : h.length ≠ q)]
      rw [readH_append_lt _ hq]
    rcases had with hc | hc
    · refine ⟨_, h.length, ?_, hpres2, le_refl _, by omega, by omega⟩
      unfold apply_permutationH
      rw [if_pos (show (readH h pr).dtype.itemsize = 4 ∧ (readH h pr).dtype.kind = 'i' by
        rw [hpd]; exact ⟨rfl, rfl⟩)]
      rw [if_pos (show (readH h ar).dtype.itemsize = 8 ∧ (readH h ar).dtype.kind = 'f' by
        rw [hc]; exact ⟨rfl, rfl⟩)]
      simp only [thrust_apply_sort_perm_H, if_pos hcond]
    · refine ⟨_, h.length, ?_, hpres2, le_refl _, by omega, by omega⟩
      unfold apply_permutationH
      rw [if_pos (show (readH h pr).dtype.itemsize = 4 ∧ (readH h pr).dtype.kind = 'i' by
        rw [hpd]; exact ⟨rfl, rfl⟩)]
      rw [if_neg (show ¬((readH h ar).dtype.itemsize = 8 ∧ (readH h ar).dtype.kind = 'f') by
        rw [hc]; rintro ⟨h8, _⟩; exact absurd h8 (by decide))]
      rw [if_pos (show (readH h ar).dtype.itemsize = 4 ∧ (readH h ar).dtype.kind = 'i' by
        rw [hc]; exact ⟨rfl, rfl⟩)]
      simp only [thrust_apply_sort_perm_H, if_pos hcond]

/-- The two-cell sample heap used by the frame witness. -/
def sampleHeap : Heap := [⟨float64, [3, 1, 2]⟩, ⟨int32, [2, 0, 1]⟩]

/-- Witness for C10 on a concrete two-cell heap. -/
theorem argsort_applyperm_frame_witness :
    0 < sampleHeap.length ∧ 1 < sampleHeap.length ∧
    ((readH sampleHeap 0).dtype = float64 ∨ (readH sampleHeap 0).dtype = int32) ∧
    (readH sampleHeap 1).dtype = int32 ∧
    (readH sampleHeap 1).data.length = (readH sampleHeap 0).data.length ∧
    ((∃ h1 p1, argsortH sampleHeap 0 = .ok (h1, p1) ∧
      ∀ q, q < sampleHeap.length → readH h1 q = readH sampleHeap q) ∧
    (∃ h2 t, apply_permutationH sampleHeap 0 1 = .ok (h2, t) ∧
      (∀ q, q < sampleHeap.length → readH h2 q = readH sampleHeap q) ∧
      sampleHeap.length ≤ t ∧ 0 ≠ t ∧ 1 ≠ t)) :=
  ⟨by decide, by decide, Or.inl rfl, rfl, by decide,
    argsort_applyperm_frame sampleHeap 0 0 1 (by decide) (Or.inl rfl) (by decide)
      (by decide) rfl (Or.inl rfl) (by decide)⟩

end GpuWrap
